import Mathlib

/-!
Verification of the raycasting core of the repository.

The embedding covers `src/core/engine/Map.ts` (tile model, tile creation,
solidity queries), the `TextureManager` (color sampling with clamping) and
the `Renderer` (`castRay` march, wall projection, wall-face tie-break, fog
blending) from the bundled renderer source.

Modelling conventions:
* JavaScript numbers are elements of a linear ordered field with a floor
  function — `ℚ` where concrete evaluation is wanted, `ℝ` where the source
  applies `Math.sin` / `Math.cos`.  The march loop is polymorphic over the
  field so the same definition serves both.
* `undefined` / `null` become `Option`; JS objects keyed by numbers or
  strings become association lists queried with `List.lookup`.
* The `while` loop of `castRay` increments its `distance` counter by `1`
  from `0` and exits as soon as `distance ≥ maxDistance`, so it performs
  exactly `⌈maxDistance⌉₊` iterations; the recursion is made structural on
  that fuel, which reproduces the loop exactly.
-/

namespace Room25

/-- Tile record, from `src/core/engine/Map.ts` (`interface Tile`):
`{ type: number, name: string, texture?: string, height?: number,
isSolid: boolean }`.  Optional fields become `Option`s. -/
structure Tile where
  type : ℤ
  name : String
  texture : Option String := none
  height : Option ℚ := none
  isSolid : Bool
deriving DecidableEq

/-- Tile definition record (`interface TileDefinition` in Map.ts): unlike
on `Tile`, the `texture` field is mandatory here. -/
structure TileDefinition where
  type : ℤ
  name : String
  texture : String
  isSolid : Bool
  height : Option ℚ := none
deriving DecidableEq

/- The `Map` class of Map.ts is modelled by explicit state passing: its
`tileDefinitions` object is an association list from type codes to
definitions, and its `tiles` field a row-major list of rows.  The
namespace is called `GameMap` because `Map` would shadow too many names. -/
namespace GameMap

/-- Source `Map.createTile` (Map.ts lines 131–144): look the type code up in
`tileDefinitions`; an unregistered code returns the default tile literal
`{ type: 0, name: "empty", isSolid: false, texture: "empty" }` (note that
the source does set `texture` to the string `"empty"`); a registered code
returns the definition object itself as the tile. -/
def createTile (defs : List (ℤ × TileDefinition)) (t : ℤ) : Tile :=
  match defs.lookup t with
  | none => { type := 0, name := "empty", isSolid := false, texture := some "empty" }
  | some d => { type := d.type, name := d.name, texture := some d.texture,
                isSolid := d.isSolid, height := d.height }

/-- Source `Map.initializeTiles` (Map.ts lines 119–123): map `createTile` over the
row-major grid of type codes. -/
def initializeTiles (defs : List (ℤ × TileDefinition)) (mapData : List (List ℤ)) :
    List (List Tile) :=
  mapData.map fun row => row.map (createTile defs)

/-- Source `Map.getTile` (Map.ts lines 153–155): `this.tiles[y]?.[x]`.  A negative
or too-large index into a JS array yields `undefined`, and `?.` propagates
it. -/
def getTile (tiles : List (List Tile)) (x y : ℤ) : Option Tile :=
  if 0 ≤ y ∧ 0 ≤ x then (tiles[y.toNat]?).bind fun row => row[x.toNat]? else none

/-- Source `Map.isSolid` (Map.ts lines 164–167): `this.getTile(x, y)?.isSolid ?? true` —
out-of-bounds lookups count as solid. -/
def isSolid (tiles : List (List Tile)) (x y : ℤ) : Bool :=
  (getTile tiles x y).elim true Tile.isSolid

end GameMap

/-- Wall tile definition used for concrete test grids throughout (the
shape a level such as `src/demos/startdown/levels/level_1.ts` registers for
type code 1). -/
def wallDef : TileDefinition :=
  { type := 1, name := "wall", texture := "brick", isSolid := true }

/-- A one-entry definition table registering type code 1. -/
def defs1 : List (ℤ × TileDefinition) := [(1, wallDef)]

/-- The tile produced for type code 1 under `defs1`. -/
def wallTile : Tile := GameMap.createTile defs1 1

/-- The tile produced for unregistered type codes under `defs1`. -/
def emptyTile : Tile := GameMap.createTile defs1 0

/-- Ray hit record returned by `Renderer.castRay`:
`{ distance, hitX, hitY, tile }` (the source returns `tile: hitTile` where
`hitTile` starts as `null`). -/
structure RayHit (α : Type) where
  distance : α
  hitX : α
  hitY : α
  tile : Option Tile

/- The `Renderer` class (bundled renderer source, lines 478–643).  Its
configuration fields (`TILE_SIZE`, `MAX_RAY_DISTANCE`, …) are passed as
explicit arguments. -/
namespace Renderer

variable {α : Type} [LinearOrderedField α] [FloorRing α]

/-- The `while (!hit && distance < this.MAX_RAY_DISTANCE)` loop of
`Renderer.castRay` (lines 592–604).  `d` is the current integer value of
the `distance` counter (it starts at 0 and each iteration runs
`distance += 1` first), `hx`/`hy` the current values of `hitX`/`hitY`,
and the body computes
`hitX = (player.x + cos * distance) / TILE_SIZE`,
`hitY = (player.y + sin * distance) / TILE_SIZE`,
`tile = map.getTile(Math.floor(hitX), Math.floor(hitY))` and stops when
`tile?.isSolid` is truthy.  The recursion is structural on a fuel that
bounds the remaining iterations; `castRayCS` supplies fuel `⌈maxD⌉₊`,
which is exactly the loop's iteration count. -/
def castRayLoop (tiles : List (List Tile)) (px py c s T maxD : α) :
    ℕ → α → α → ℕ → RayHit α
  | d, hx, hy, 0 => ⟨(d : α), hx, hy, none⟩
  | d, hx, hy, fuel + 1 =>
    if (d : α) < maxD then
      let hx' := (px + c * ((d : α) + 1)) / T
      let hy' := (py + s * ((d : α) + 1)) / T
      let tl := GameMap.getTile tiles ⌊hx'⌋ ⌊hy'⌋
      if tl.elim false Tile.isSolid then ⟨(d : α) + 1, hx', hy', tl⟩
      else castRayLoop tiles px py c s T maxD (d + 1) hx' hy' fuel
    else ⟨(d : α), hx, hy, none⟩

/-- Source `Renderer.castRay` with the two trigonometric values
`c = Math.cos(rayAngle)` and `s = Math.sin(rayAngle)` (computed on the
function's first two lines) taken as parameters. -/
def castRayCS (tiles : List (List Tile)) (px py c s T maxD : α) : RayHit α :=
  castRayLoop tiles px py c s T maxD 0 0 0 ⌈maxD⌉₊

/-- Source `Renderer.castRay(rayAngle, player, map)` itself, over `ℝ` because of
the trigonometric functions; `T` is `this.TILE_SIZE` and `maxD` is
`this.MAX_RAY_DISTANCE`. -/
noncomputable def castRay (tiles : List (List Tile)) (px py rayAngle T maxD : ℝ) :
    RayHit ℝ :=
  castRayCS tiles px py (Real.cos rayAngle) (Real.sin rayAngle) T maxD

/-- Position of the march's sample point at step `k` in one coordinate:
`(p + c * k) / T`, the grid-space (tile-size-divided) coordinate. -/
def sample (p c T : α) (k : ℕ) : α := (p + c * (k : α)) / T

/-- Whether the march's sample at step `k` registers as solid:
`map.getTile(...)?.isSolid` is truthy (so an out-of-bounds sample, where
`getTile` is `none`, is never solid here). -/
def solidAt (tiles : List (List Tile)) (px py c s T : α) (k : ℕ) : Bool :=
  (GameMap.getTile tiles ⌊sample px c T k⌋ ⌊sample py s T k⌋).elim false Tile.isSolid

/-- Formula `rayAngle = player.angle - this.FOV / 2 + (i / this.NUM_RAYS) * this.FOV`
(render loop, line 548). -/
def rayAngle [DivisionRing β] (angle fov : β) (i n : ℕ) : β :=
  angle - fov / 2 + ((i : β) / (n : β)) * fov

/-- Formula `wallHeight = (this.TILE_SIZE * this.PROJECTION_PLANE_DISTANCE) /
(distance + 0.0001)` (render loop, line 550). -/
def wallHeight (tileSize projDist distance : ℚ) : ℚ :=
  tileSize * projDist / (distance + 1 / 10000)

/-- Wall-face tie-break (render loop, lines 553–558): if
`Math.abs(hitX - Math.floor(hitX + 0.5)) > Math.abs(hitY - Math.floor(hitY + 0.5))`
then `wallX = hitX - Math.floor(hitX)` else `wallX = hitY - Math.floor(hitY)`. -/
def wallXFrac (hitX hitY : ℚ) : ℚ :=
  if |hitX - ⌊hitX + 1 / 2⌋| > |hitY - ⌊hitY + 1 / 2⌋| then hitX - ⌊hitX⌋
  else hitY - ⌊hitY⌋

/-- Formula `textureX = Math.floor(wallX * this.TILE_SIZE)` (render loop, line 559). -/
def textureX (hitX hitY tileSize : ℚ) : ℤ :=
  ⌊wallXFrac hitX hitY * tileSize⌋

end Renderer

/-- The 4×4 ring level of the end-to-end scenario: all-solid border,
open interior. -/
def ring4Data : List (List ℤ) :=
  [[1, 1, 1, 1], [1, 0, 0, 1], [1, 0, 0, 1], [1, 1, 1, 1]]

/-- The tile grid built from `ring4Data` under `defs1`. -/
def ring4 : List (List Tile) := GameMap.initializeTiles defs1 ring4Data

/-- An 8×8 single-ring level: all-solid border, open interior.  Used to
probe the claimed radius bound on larger rings. -/
def ring8Data : List (List ℤ) :=
  [[1, 1, 1, 1, 1, 1, 1, 1],
   [1, 0, 0, 0, 0, 0, 0, 1],
   [1, 0, 0, 0, 0, 0, 0, 1],
   [1, 0, 0, 0, 0, 0, 0, 1],
   [1, 0, 0, 0, 0, 0, 0, 1],
   [1, 0, 0, 0, 0, 0, 0, 1],
   [1, 0, 0, 0, 0, 0, 0, 1],
   [1, 1, 1, 1, 1, 1, 1, 1]]

/-- The tile grid built from `ring8Data` under `defs1`. -/
def ring8 : List (List Tile) := GameMap.initializeTiles defs1 ring8Data

/-- Decoded pixel buffer (browser `ImageData`): RGBA bytes row-major,
`data.length = 4 * width * height` for real decoded images. -/
structure ImageData where
  width : ℕ
  height : ℕ
  data : List ℕ
deriving DecidableEq

namespace TextureManager

/-- Coordinate clamping in `getTextureColor` (renderer source lines
436–437): `Math.max(0, Math.min(v, size - 1))`. -/
def clampCoord (v : ℤ) (size : ℕ) : ℤ :=
  max 0 (min v ((size : ℤ) - 1))

/-- Index of the first byte read for the clamped pixel
(line 439): `(y * width + x) * 4`.  The clamped coordinates are
non-negative, so the `ℤ → ℕ` conversion is lossless. -/
def texIndex (img : ImageData) (x y : ℤ) : ℕ :=
  ((clampCoord y img.height * (img.width : ℤ) + clampCoord x img.width) * 4).toNat

/-- The pixel triple `(r, g, b)` read by `TextureManager.getTextureColor`
(lines 432–445), or `none` when `this.textureData` has no entry for the
name.  A JS out-of-range read on the byte array would give `undefined`;
that case is modelled as a default `0` and shown unreachable under the
`ImageData` size invariant. -/
def getTextureSample (store : List (String × ImageData)) (name : String) (x y : ℤ) :
    Option (ℕ × ℕ × ℕ) :=
  (store.lookup name).map fun img =>
    (img.data.getD (texIndex img x y) 0,
     img.data.getD (texIndex img x y + 1) 0,
     img.data.getD (texIndex img x y + 2) 0)

/-- The `rgb(r, g, b)` string (with spaces) that `getTextureColor`
interpolates on line 444. -/
def rgbString (r g b : ℕ) : String :=
  "rgb(" ++ toString r ++ ", " ++ toString g ++ ", " ++ toString b ++ ")"

/-- Source `TextureManager.getTextureColor`: `"#ffffff"` when the texture name
has no decoded data, otherwise the sampled pixel rendered as an
`rgb(r, g, b)` string. -/
def getTextureColor (store : List (String × ImageData)) (name : String) (x y : ℤ) :
    String :=
  match getTextureSample store name x y with
  | none => "#ffffff"
  | some (r, g, b) => rgbString r g b

end TextureManager

namespace Renderer

/-- Constant `fogStart` of `getWallColor` (line 633). -/
def fogStart : ℚ := 300

/-- Constant `fogEnd` of `getWallColor` (line 634). -/
def fogEnd : ℚ := 700

/-- The clamped fog blend factor of `getWallColor` (lines 635–636):
`Math.max(0, Math.min(1, (distance - fogStart) / (fogEnd - fogStart)))`. -/
def fogFactor (distance : ℚ) : ℚ :=
  max 0 (min 1 ((distance - fogStart) / (fogEnd - fogStart)))

/-- The parse of `baseColor` in `getWallColor` (lines 625–631): the regex
`rgb\((\d+),\s*(\d+),\s*(\d+)\)` matches exactly the `rgb(r, g, b)`
strings produced by `getTextureColor` and recovers the triple; any other
string (notably the `"#ffffff"` fallback) leaves the defaults
`r = g = b = 255`. -/
def parseRGBDefault (c : Option (ℕ × ℕ × ℕ)) : ℕ × ℕ × ℕ :=
  c.getD (255, 255, 255)

/-- One channel of the fog blend (lines 638–640):
`Math.round(ch * (1 - fogFactor) + fogCh * fogFactor)`; JS `Math.round`
is `⌊x + 1/2⌋`, which is Lean's `round`. -/
def blendChannel (ch fogCh f : ℚ) : ℤ :=
  round (ch * (1 - f) + fogCh * f)

/-- Source `Renderer.getWallColor` (lines 619–643) up to string rendering: the
early return `if (!tile?.texture) return "#ffffff"` (a missing or empty
`texture` string is falsy) becomes `none`; otherwise the texture sample
for `tile.name` is parsed and fog-blended, giving the output channel
triple. -/
def getWallColorRGB (tile : Tile) (texX texY : ℤ)
    (store : List (String × ImageData)) (fogColor : ℕ × ℕ × ℕ)
    (distance : ℚ) : Option (ℤ × ℤ × ℤ) :=
  if tile.texture.getD "" = "" then none
  else
    some (blendChannel
            ((parseRGBDefault
              (TextureManager.getTextureSample store tile.name texX texY)).1 : ℚ)
            (fogColor.1 : ℚ) (fogFactor distance),
          blendChannel
            ((parseRGBDefault
              (TextureManager.getTextureSample store tile.name texX texY)).2.1 : ℚ)
            (fogColor.2.1 : ℚ) (fogFactor distance),
          blendChannel
            ((parseRGBDefault
              (TextureManager.getTextureSample store tile.name texX texY)).2.2 : ℚ)
            (fogColor.2.2 : ℚ) (fogFactor distance))

/-- Source `Renderer.getWallColor` as the string the source returns:
`"#ffffff"` on the early return, otherwise `rgb(r,g,b)` without spaces
(line 642). -/
def getWallColor (tile : Tile) (texX texY : ℤ)
    (store : List (String × ImageData)) (fogColor : ℕ × ℕ × ℕ)
    (distance : ℚ) : String :=
  match getWallColorRGB tile texX texY store fogColor distance with
  | none => "#ffffff"
  | some (r, g, b) =>
      "rgb(" ++ toString r ++ "," ++ toString g ++ "," ++ toString b ++ ")"

end Renderer

/-! Theorems.  The part below settles the claims against the definitions
above; shared lemmas come first, then one theorem (plus witness or
counterexample where applicable) per claim. -/

/-- If `getTile` finds a tile then both indices are non-negative, the row
index is within the row list and the column index within that row. -/
lemma getTile_some_bounds {tiles : List (List Tile)} {x y : ℤ} {t : Tile}
    (h : GameMap.getTile tiles x y = some t) :
    0 ≤ x ∧ 0 ≤ y ∧ y.toNat < tiles.length ∧
      ∃ row, tiles[y.toNat]? = some row ∧ x.toNat < row.length ∧
        row[x.toNat]? = some t := by
  unfold GameMap.getTile at h
  by_cases hc : 0 ≤ y ∧ 0 ≤ x
  · rw [if_pos hc] at h
    rcases hrow : tiles[y.toNat]? with _ | row
    · rw [hrow] at h
      exact Option.noConfusion h
    · rw [hrow] at h
      have h' : row[x.toNat]? = some t := h
      have hylen : y.toNat < tiles.length := by
        by_contra hlen
        rw [List.getElem?_eq_none (Nat.le_of_not_lt hlen)] at hrow
        exact Option.noConfusion hrow
      have hxlen : x.toNat < row.length := by
        by_contra hlen
        rw [List.getElem?_eq_none (Nat.le_of_not_lt hlen)] at h'
        exact Option.noConfusion h'
      exact ⟨hc.2, hc.1, hylen, row, rfl, hxlen, h'⟩
  · rw [if_neg hc] at h
    exact Option.noConfusion h

/-- Out-of-bounds lookups (relative to a rectangular `w × h` grid) give
`getTile = none`. -/
lemma getTile_eq_none_of_oob {tiles : List (List Tile)} {w h : ℕ}
    (hh : tiles.length = h) (hw : ∀ row ∈ tiles, row.length = w)
    {x y : ℤ} (hoob : x < 0 ∨ y < 0 ∨ (w : ℤ) ≤ x ∨ (h : ℤ) ≤ y) :
    GameMap.getTile tiles x y = none := by
  rcases hgt : GameMap.getTile tiles x y with _ | t
  · rfl
  · exfalso
    obtain ⟨hx0, hy0, hylen, row, hrow, hxlen, -⟩ := getTile_some_bounds hgt
    have hroweq : row = tiles[y.toNat] := by
      rw [List.getElem?_eq_getElem hylen] at hrow
      exact (Option.some_inj.mp hrow).symm
    have hrowmem : row ∈ tiles := hroweq ▸ List.getElem_mem hylen
    have hrwlen : row.length = w := hw row hrowmem
    rcases hoob with hx | hy | hx | hy
    · exact absurd hx0 (not_le.mpr hx)
    · exact absurd hy0 (not_le.mpr hy)
    · have : x.toNat < w := hrwlen ▸ hxlen
      have : (w : ℤ) ≤ x := hx
      omega
    · have : y.toNat < h := hh ▸ hylen
      omega

/-- In-bounds lookups on a rectangular grid find the stored tile. -/
lemma getTile_eq_some_of_inb {tiles : List (List Tile)} {w h : ℕ}
    (hh : tiles.length = h) (hw : ∀ row ∈ tiles, row.length = w)
    {x y : ℤ} (hx0 : 0 ≤ x) (hxw : x < (w : ℤ)) (hy0 : 0 ≤ y) (hyh : y < (h : ℤ)) :
    ∃ t, GameMap.getTile tiles x y = some t := by
  have hylen : y.toNat < tiles.length := by omega
  have hrow : tiles[y.toNat]? = some tiles[y.toNat] := List.getElem?_eq_getElem hylen
  have hrowmem : tiles[y.toNat] ∈ tiles := List.getElem_mem hylen
  have hxlen : x.toNat < (tiles[y.toNat]).length := by
    rw [hw _ hrowmem]; omega
  refine ⟨(tiles[y.toNat])[x.toNat], ?_⟩
  unfold GameMap.getTile
  rw [if_pos ⟨hy0, hx0⟩, hrow]
  show (tiles[y.toNat])[x.toNat]? = some (tiles[y.toNat])[x.toNat]
  exact List.getElem?_eq_getElem hxlen

/-- C2: for every pair of integer coordinates outside the declared bounds
`[0,w) × [0,h)` of a rectangular grid, `isSolid` returns `true`; for every
in-bounds pair it returns exactly the `isSolid` flag of the tile stored at
that cell. -/
theorem isSolid_spec (tiles : List (List Tile)) (w h : ℕ)
    (hh : tiles.length = h) (hw : ∀ row ∈ tiles, row.length = w) :
    (∀ x y : ℤ, (x < 0 ∨ y < 0 ∨ (w : ℤ) ≤ x ∨ (h : ℤ) ≤ y) →
      GameMap.isSolid tiles x y = true) ∧
    (∀ x y : ℤ, 0 ≤ x → x < (w : ℤ) → 0 ≤ y → y < (h : ℤ) →
      ∃ t, GameMap.getTile tiles x y = some t ∧
        GameMap.isSolid tiles x y = t.isSolid) := by
  constructor
  · intro x y hoob
    unfold GameMap.isSolid
    rw [getTile_eq_none_of_oob hh hw hoob]
    rfl
  · intro x y hx0 hxw hy0 hyh
    obtain ⟨t, ht⟩ := getTile_eq_some_of_inb hh hw hx0 hxw hy0 hyh
    exact ⟨t, ht, by unfold GameMap.isSolid; rw [ht]; rfl⟩

/-- Witness for C2 on a concrete 2×2 grid: the out-of-bounds corner
`(5, 0)` reads solid, and the in-bounds cell `(0, 0)` reads its stored
wall tile's flag. -/
theorem isSolid_spec_witness :
    GameMap.isSolid [[wallTile, emptyTile], [emptyTile, wallTile]] 5 0 = true ∧
      ∃ t, GameMap.getTile [[wallTile, emptyTile], [emptyTile, wallTile]] 0 0 = some t ∧
        GameMap.isSolid [[wallTile, emptyTile], [emptyTile, wallTile]] 0 0 = t.isSolid := by
  have h := isSolid_spec [[wallTile, emptyTile], [emptyTile, wallTile]] 2 2
    (by decide) (by decide)
  exact ⟨h.1 5 0 (by right; right; left; decide), h.2 0 0 (by decide) (by decide)
    (by decide) (by decide)⟩

/-- C9 counterexample: the claim says the default tile for an unregistered
type code "has no texture", but `createTile` sets its `texture` field to
the string `"empty"`: at the concrete input (empty definition table, code
0) the texture field is present, not absent. -/
theorem createTile_default_texture_counterexample :
    ¬ (GameMap.createTile [] 0).texture = none := by
  decide

/-- C9 (amended): for every registered type code, tile creation returns a
tile whose `isSolid` and `texture` match the registered definition; for
every unregistered code (including 0) it returns the default empty tile,
which is non-solid and whose `texture` field holds the sentinel string
`"empty"` (rather than being absent); no error is raised (the function is
total). -/
theorem createTile_spec :
    (∀ (defs : List (ℤ × TileDefinition)) (t : ℤ) (d : TileDefinition),
      defs.lookup t = some d →
        (GameMap.createTile defs t).isSolid = d.isSolid ∧
        (GameMap.createTile defs t).texture = some d.texture) ∧
    (∀ (defs : List (ℤ × TileDefinition)) (t : ℤ),
      defs.lookup t = none →
        GameMap.createTile defs t =
          { type := 0, name := "empty", isSolid := false, texture := some "empty" }) := by
  constructor
  · intro defs t d hd
    unfold GameMap.createTile
    rw [hd]
    exact ⟨rfl, rfl⟩
  · intro defs t hd
    unfold GameMap.createTile
    rw [hd]

/-- Witness for C9: under `defs1`, the registered code 1 yields a solid
tile textured `"brick"`, and the unregistered code 7 yields the default
empty tile. -/
theorem createTile_spec_witness :
    ((GameMap.createTile defs1 1).isSolid = wallDef.isSolid ∧
      (GameMap.createTile defs1 1).texture = some wallDef.texture) ∧
    GameMap.createTile defs1 7 =
      { type := 0, name := "empty", isSolid := false, texture := some "empty" } :=
  ⟨createTile_spec.1 defs1 1 wallDef (by decide), createTile_spec.2 defs1 7 (by decide)⟩

section March

variable {α : Type} [LinearOrderedField α] [FloorRing α]

/-- If no step in `(d, m]` registers as solid, the loop exits by the
distance guard, reporting `distance = m` and no tile. -/
lemma castRayLoop_no_hit (tiles : List (List Tile)) (px py c s T : α) (m : ℕ) :
    ∀ (f d : ℕ), d + f = m →
      (∀ k, d < k → k ≤ m → Renderer.solidAt tiles px py c s T k = false) →
      ∀ (hx hy : α),
        (Renderer.castRayLoop tiles px py c s T (m : α) d hx hy f).distance = (m : α) ∧
        (Renderer.castRayLoop tiles px py c s T (m : α) d hx hy f).tile = none := by
  intro f
  induction f with
  | zero =>
    intro d hf _ hx hy
    have hd : d = m := by omega
    subst hd
    exact ⟨rfl, rfl⟩
  | succ f ih =>
    intro d hf hnone hx hy
    have hdm : d < m := by omega
    have hcast : (d : α) < (m : α) := by exact_mod_cast hdm
    have hsample : ((d : α) + 1) = ((d + 1 : ℕ) : α) := by push_cast; ring
    have hsolid : Renderer.solidAt tiles px py c s T (d + 1) = false :=
      hnone (d + 1) (by omega) (by omega)
    simp only [Renderer.castRayLoop, if_pos hcast]
    rw [show (px + c * ((d : α) + 1)) / T = Renderer.sample px c T (d + 1) by
          unfold Renderer.sample; rw [hsample],
        show (py + s * ((d : α) + 1)) / T = Renderer.sample py s T (d + 1) by
          unfold Renderer.sample; rw [hsample]]
    rw [show (GameMap.getTile tiles ⌊Renderer.sample px c T (d + 1)⌋
          ⌊Renderer.sample py s T (d + 1)⌋).elim false Tile.isSolid = false from hsolid]
    simp only [Bool.false_eq_true, if_false]
    exact ih (d + 1) (by omega) (fun k hk hk' => hnone k (by omega) hk') _ _

/-- If `k` is the first step after `d` registering as solid and `k ≤ m`,
the loop stops there, reporting distance `k`, the sample's grid-space
coordinates and the tile found by `getTile`. -/
lemma castRayLoop_hit (tiles : List (List Tile)) (px py c s T : α) (m k : ℕ)
    (hsol : Renderer.solidAt tiles px py c s T k = true) :
    ∀ (f d : ℕ), d + f = m → d < k → k ≤ m →
      (∀ j, d < j → j < k → Renderer.solidAt tiles px py c s T j = false) →
      ∀ (hx hy : α),
        Renderer.castRayLoop tiles px py c s T (m : α) d hx hy f =
          ⟨(k : α), Renderer.sample px c T k, Renderer.sample py s T k,
            GameMap.getTile tiles ⌊Renderer.sample px c T k⌋
              ⌊Renderer.sample py s T k⌋⟩ := by
  intro f
  induction f with
  | zero =>
    intro d hf hdk hkm _ hx hy
    omega
  | succ f ih =>
    intro d hf hdk hkm hmin hx hy
    have hdm : d < m := by omega
    have hcast : (d : α) < (m : α) := by exact_mod_cast hdm
    have hsample : ((d : α) + 1) = ((d + 1 : ℕ) : α) := by push_cast; ring
    simp only [Renderer.castRayLoop, if_pos hcast]
    rw [show (px + c * ((d : α) + 1)) / T = Renderer.sample px c T (d + 1) by
          unfold Renderer.sample; rw [hsample],
        show (py + s * ((d : α) + 1)) / T = Renderer.sample py s T (d + 1) by
          unfold Renderer.sample; rw [hsample]]
    by_cases hk : k = d + 1
    · subst hk
      rw [show (GameMap.getTile tiles ⌊Renderer.sample px c T (d + 1)⌋
            ⌊Renderer.sample py s T (d + 1)⌋).elim false Tile.isSolid = true from hsol]
      simp only [if_true]
      rw [hsample]
    · have hd1k : d + 1 < k := by omega
      rw [show (GameMap.getTile tiles ⌊Renderer.sample px c T (d + 1)⌋
            ⌊Renderer.sample py s T (d + 1)⌋).elim false Tile.isSolid = false from
          hmin (d + 1) (by omega) hd1k]
      simp only [Bool.false_eq_true, if_false]
      exact ih (d + 1) (by omega) hd1k hkm (fun j hj hj' => hmin j (by omega) hj') _ _

/-- Complete case analysis of `castRayCS` with a natural-number maximum
distance `m`: either some step in `[1, m]` is solid and the march stops at
the first such step, or no step is and the march runs out, reporting
`distance = m` and no tile. -/
theorem castRayCS_cases (tiles : List (List Tile)) (px py c s T : α) (m : ℕ) :
    (∃ k, 0 < k ∧ k ≤ m ∧ Renderer.solidAt tiles px py c s T k = true ∧
      (∀ j, 0 < j → j < k → Renderer.solidAt tiles px py c s T j = false) ∧
      Renderer.castRayCS tiles px py c s T (m : α) =
        ⟨(k : α), Renderer.sample px c T k, Renderer.sample py s T k,
          GameMap.getTile tiles ⌊Renderer.sample px c T k⌋
            ⌊Renderer.sample py s T k⌋⟩) ∨
    ((∀ k, 0 < k → k ≤ m → Renderer.solidAt tiles px py c s T k = false) ∧
      (Renderer.castRayCS tiles px py c s T (m : α)).distance = (m : α) ∧
      (Renderer.castRayCS tiles px py c s T (m : α)).tile = none) := by
  have hfuel : ⌈((m : ℕ) : α)⌉₊ = m := Nat.ceil_natCast m
  by_cases hex : ∃ k, 0 < k ∧ k ≤ m ∧ Renderer.solidAt tiles px py c s T k = true
  · left
    obtain ⟨k₁, hk₁⟩ := hex
    have hexP : ∃ k, 0 < k ∧ Renderer.solidAt tiles px py c s T k = true :=
      ⟨k₁, hk₁.1, hk₁.2.2⟩
    classical
    let k₀ := Nat.find hexP
    have hk₀ : 0 < k₀ ∧ Renderer.solidAt tiles px py c s T k₀ = true := Nat.find_spec hexP
    have hk₀le : k₀ ≤ k₁ := Nat.find_min' hexP ⟨hk₁.1, hk₁.2.2⟩
    have hmin : ∀ j, 0 < j → j < k₀ → Renderer.solidAt tiles px py c s T j = false := by
      intro j hj hjk
      have := Nat.find_min hexP hjk
      simp only [not_and] at this
      exact Bool.eq_false_iff.mpr (this hj)
    refine ⟨k₀, hk₀.1, by omega, hk₀.2, hmin, ?_⟩
    unfold Renderer.castRayCS
    rw [hfuel]
    exact castRayLoop_hit tiles px py c s T m k₀ hk₀.2 m 0 (by omega) hk₀.1
      (by omega) (fun j hj hj' => hmin j hj hj') 0 0
  · right
    push_neg at hex
    have hnone : ∀ k, 0 < k → k ≤ m → Renderer.solidAt tiles px py c s T k = false := by
      intro k hk hkm
      exact Bool.eq_false_iff.mpr (hex k hk hkm)
    have h := castRayLoop_no_hit tiles px py c s T m m 0 (by omega)
      (fun k hk hk' => hnone k hk hk') 0 0
    refine ⟨hnone, ?_, ?_⟩
    · unfold Renderer.castRayCS
      rw [hfuel]
      exact h.1
    · unfold Renderer.castRayCS
      rw [hfuel]
      exact h.2

end March

/-- Lookup `getTile` on the empty grid is always absent: `tiles[y]` is
`undefined` for every index. -/
lemma getTile_nil (x y : ℤ) : GameMap.getTile [] x y = none := by
  unfold GameMap.getTile
  by_cases hc : 0 ≤ y ∧ 0 ≤ x
  · rw [if_pos hc]
    rfl
  · rw [if_neg hc]

/-- On the empty grid no march step ever registers as solid, because the
march consults `getTile`, not `isSolid`. -/
lemma solidAt_nil {α : Type} [LinearOrderedField α] [FloorRing α]
    (px py c s T : α) (k : ℕ) :
    Renderer.solidAt [] px py c s T k = false := by
  unfold Renderer.solidAt
  rw [getTile_nil]
  rfl

/-- On the empty grid the march always runs out, reporting
`distance = maxDistance` and no tile. -/
lemma castRayCS_nil {α : Type} [LinearOrderedField α] [FloorRing α]
    (px py c s T : α) (m : ℕ) :
    (Renderer.castRayCS [] px py c s T (m : α)).distance = (m : α) ∧
    (Renderer.castRayCS [] px py c s T (m : α)).tile = none := by
  rcases castRayCS_cases ([] : List (List Tile)) px py c s T m with
    ⟨k, -, -, hsol, -, -⟩ | ⟨-, h1, h2⟩
  · rw [solidAt_nil] at hsol
    exact absurd hsol (by simp)
  · exact ⟨h1, h2⟩

/-- C3 counterexample: on the zero-length (empty) grid, with the viewer at
`(32, 32)`, angle `0`, tile size `64` and `maxDistance = 1000`, the cast
ray does not "immediately hit at distance = tile-size": it reports no tile
at all and distance `1000 ≠ 64`, even though `isSolid` does report `true`
out of bounds — the march never consults `isSolid`. -/
theorem castRay_empty_grid_counterexample :
    GameMap.isSolid [] 0 0 = true ∧
    (Renderer.castRay [] 32 32 0 64 1000).tile = none ∧
    (Renderer.castRay [] 32 32 0 64 1000).distance = 1000 ∧
    (1000 : ℝ) ≠ 64 := by
  have hcast : (1000 : ℝ) = ((1000 : ℕ) : ℝ) := by norm_num
  refine ⟨by decide, ?_, ?_, by norm_num⟩
  · unfold Renderer.castRay
    rw [hcast]
    exact (castRayCS_nil 32 32 (Real.cos 0) (Real.sin 0) 64 1000).2
  · unfold Renderer.castRay
    rw [hcast]
    rw [(castRayCS_nil 32 32 (Real.cos 0) (Real.sin 0) 64 1000).1]

/-- C3 (amended): for a zero-length (empty) grid, a cast ray never
registers a hit: every `getTile` lookup is absent, so the march runs to
`maxDistance` and reports `distance = maxDistance` with tile absent.
(`isSolid` does report `true` at the first sample's out-of-bounds cell,
but `castRay` consults `getTile`, not `isSolid`, so no hit occurs at
distance = tile-size.) -/
theorem castRay_empty_grid (px py θ T : ℝ) (m : ℕ) :
    (Renderer.castRay [] px py θ T (m : ℝ)).distance = (m : ℝ) ∧
    (Renderer.castRay [] px py θ T (m : ℝ)).tile = none ∧
    GameMap.isSolid [] ⌊(px + Real.cos θ * 1) / T⌋ ⌊(py + Real.sin θ * 1) / T⌋ =
      true := by
  refine ⟨?_, ?_, ?_⟩
  · exact (castRayCS_nil px py (Real.cos θ) (Real.sin θ) T m).1
  · exact (castRayCS_nil px py (Real.cos θ) (Real.sin θ) T m).2
  · unfold GameMap.isSolid
    rw [getTile_nil]
    rfl

/-- C1 counterexample: the claim says the march "queries `isSolid`, and
stops reporting a hit at the first solid tile".  At the concrete input
(empty grid, origin `(0,0)`, angle `0`, tile size `64`,
`maxDistance = 1000`) the first sample's cell is `(0, 0)` and
`isSolid(0, 0) = true`, so the claim predicts a hit at distance 1 — but
the code (which queries `getTile`) reports distance `1000 ≠ 1` and no
tile. -/
theorem castRay_queries_getTile_counterexample :
    GameMap.isSolid [] 0 0 = true ∧
    ⌊((0 : ℝ) + Real.cos 0 * 1) / 64⌋ = 0 ∧
    ⌊((0 : ℝ) + Real.sin 0 * 1) / 64⌋ = 0 ∧
    (Renderer.castRay [] 0 0 0 64 1000).distance ≠ 1 ∧
    (Renderer.castRay [] 0 0 0 64 1000).tile = none := by
  have hcast : (1000 : ℝ) = ((1000 : ℕ) : ℝ) := by norm_num
  refine ⟨by decide, ?_, ?_, ?_, ?_⟩
  · rw [Real.cos_zero]
    rw [show ((0 : ℝ) + 1 * 1) / 64 = 1 / 64 by ring]
    rw [Int.floor_eq_zero_iff]
    rw [Set.mem_Ico]
    constructor <;> norm_num
  · rw [Real.sin_zero]
    norm_num
  · unfold Renderer.castRay
    rw [hcast]
    rw [(castRayCS_nil 0 0 (Real.cos 0) (Real.sin 0) 64 1000).1]
    norm_num
  · unfold Renderer.castRay
    rw [hcast]
    exact (castRayCS_nil 0 0 (Real.cos 0) (Real.sin 0) 64 1000).2

/-- C1 (amended): for every origin, angle, grid, tile size and natural
`maxDistance`, the march advances the sample point by a constant 1-unit
increment along `(cos angle, sin angle)` from the origin, converts each
sample to grid coordinates by dividing by tile size and flooring, queries
`getTile` (not `isSolid`: an absent out-of-bounds tile never stops it),
and stops reporting a hit at the first sample whose tile is present with
`isSolid = true`; if no such sample exists within `maxDistance` steps it
reports `distance = maxDistance`, tile absent; the reported distance is
the (non-decreasing) step index, never negative and never exceeding
`maxDistance`. -/
theorem castRay_march_spec (tiles : List (List Tile)) (px py θ T : ℝ) (m : ℕ) :
    (∀ t, (Renderer.castRay tiles px py θ T (m : ℝ)).tile = some t →
      ∃ k : ℕ, 1 ≤ k ∧ k ≤ m ∧
        (Renderer.castRay tiles px py θ T (m : ℝ)).distance = (k : ℝ) ∧
        (Renderer.castRay tiles px py θ T (m : ℝ)).hitX =
          (px + Real.cos θ * k) / T ∧
        (Renderer.castRay tiles px py θ T (m : ℝ)).hitY =
          (py + Real.sin θ * k) / T ∧
        GameMap.getTile tiles ⌊(px + Real.cos θ * k) / T⌋
          ⌊(py + Real.sin θ * k) / T⌋ = some t ∧
        t.isSolid = true ∧
        ∀ j : ℕ, 1 ≤ j → j < k →
          Renderer.solidAt tiles px py (Real.cos θ) (Real.sin θ) T j = false) ∧
    ((∀ k : ℕ, 1 ≤ k → k ≤ m →
        Renderer.solidAt tiles px py (Real.cos θ) (Real.sin θ) T k = false) →
      (Renderer.castRay tiles px py θ T (m : ℝ)).distance = (m : ℝ) ∧
      (Renderer.castRay tiles px py θ T (m : ℝ)).tile = none) ∧
    (0 ≤ (Renderer.castRay tiles px py θ T (m : ℝ)).distance ∧
      (Renderer.castRay tiles px py θ T (m : ℝ)).distance ≤ (m : ℝ)) := by
  unfold Renderer.castRay
  rcases castRayCS_cases tiles px py (Real.cos θ) (Real.sin θ) T m with
    ⟨k, hk0, hkm, hsol, hmin, heq⟩ | ⟨hnone, hdist, htile⟩
  · refine ⟨?_, ?_, ?_⟩
    · intro t ht
      rw [heq] at ht
      have hgt : GameMap.getTile tiles ⌊(px + Real.cos θ * k) / T⌋
          ⌊(py + Real.sin θ * k) / T⌋ = some t := ht
      refine ⟨k, hk0, hkm, by rw [heq], by rw [heq]; rfl, by rw [heq]; rfl, hgt, ?_,
        fun j hj hjk => hmin j hj hjk⟩
      have hsol' := hsol
      unfold Renderer.solidAt at hsol'
      rw [show GameMap.getTile tiles ⌊Renderer.sample px (Real.cos θ) T k⌋
            ⌊Renderer.sample py (Real.sin θ) T k⌋ = some t from hgt] at hsol'
      exact hsol'
    · intro hnone
      exact absurd (hnone k hk0 hkm) (by simp [hsol])
    · rw [heq]
      refine ⟨?_, ?_⟩
      · show (0 : ℝ) ≤ (k : ℝ)
        positivity
      · show (k : ℝ) ≤ (m : ℝ)
        exact_mod_cast hkm
  · refine ⟨?_, fun _ => ⟨hdist, htile⟩, ?_⟩
    · intro t ht
      rw [htile] at ht
      exact Option.noConfusion ht
    · rw [hdist]
      constructor
      · positivity
      · exact le_refl _

/-- On the concrete ring grid, the straight-ahead march from the center at
angle 0 passes over the open interior cell `(2, 2)` for the first 63
steps. -/
lemma ring4_solidAt_false (j : ℕ) (h1 : 1 ≤ j) (h2 : j ≤ 63) :
    Renderer.solidAt ring4 (128 : ℝ) 128 1 0 64 j = false := by
  unfold Renderer.solidAt Renderer.sample
  have hj1 : (1 : ℝ) ≤ (j : ℝ) := by exact_mod_cast h1
  have hj2 : (j : ℝ) ≤ 63 := by exact_mod_cast h2
  have hx : ⌊((128 : ℝ) + 1 * (j : ℝ)) / 64⌋ = 2 := by
    rw [Int.floor_eq_iff]
    constructor
    · rw [le_div_iff₀ (by norm_num : (0 : ℝ) < 64)]
      push_cast
      linarith
    · rw [div_lt_iff₀ (by norm_num : (0 : ℝ) < 64)]
      push_cast
      linarith
  have hy : ⌊((128 : ℝ) + 0 * (j : ℝ)) / 64⌋ = 2 := by
    rw [show ((128 : ℝ) + 0 * (j : ℝ)) / 64 = 2 by ring]
    norm_num
  rw [hx, hy]
  decide

/-- At step 64 the straight-ahead march from the center reaches the border
cell `(3, 2)`, which is solid. -/
lemma ring4_solidAt_64 : Renderer.solidAt ring4 (128 : ℝ) 128 1 0 64 64 = true := by
  unfold Renderer.solidAt Renderer.sample
  have hx : ((128 : ℝ) + 1 * ((64 : ℕ) : ℝ)) / 64 = 3 := by push_cast; norm_num
  have hy : ((128 : ℝ) + 0 * ((64 : ℕ) : ℝ)) / 64 = 2 := by push_cast; norm_num
  rw [hx, hy]
  rw [show ⌊(3 : ℝ)⌋ = 3 by norm_num, show ⌊(2 : ℝ)⌋ = 2 by norm_num]
  decide

/-- Concrete evaluation of `castRay` on the 4×4 ring with the viewer at the
center facing angle 0: the ray stops at step 64 on the border cell
`(3, 2)` with grid-space hit coordinates `(3, 2)`. -/
lemma ring4_castRay_concrete :
    Renderer.castRay ring4 128 128 0 64 1000 = ⟨64, 3, 2, some wallTile⟩ := by
  unfold Renderer.castRay
  rw [Real.cos_zero, Real.sin_zero]
  rw [show (1000 : ℝ) = ((1000 : ℕ) : ℝ) by norm_num]
  unfold Renderer.castRayCS
  rw [Nat.ceil_natCast]
  rw [castRayLoop_hit ring4 (128 : ℝ) 128 1 0 64 1000 64 ring4_solidAt_64 1000 0
    (by omega) (by omega) (by omega)
    (fun j hj hjk => ring4_solidAt_false j hj (by omega)) 0 0]
  unfold Renderer.sample
  have hx : ((128 : ℝ) + 1 * ((64 : ℕ) : ℝ)) / 64 = 3 := by push_cast; norm_num
  have hy : ((128 : ℝ) + 0 * ((64 : ℕ) : ℝ)) / 64 = 2 := by push_cast; norm_num
  rw [hx, hy]
  rw [show ⌊(3 : ℝ)⌋ = 3 by norm_num, show ⌊(2 : ℝ)⌋ = 2 by norm_num]
  rw [show GameMap.getTile ring4 3 2 = some wallTile from by decide]
  rw [show ((64 : ℕ) : ℝ) = 64 by norm_num]

/-- Witness for C1 (amended): the no-hit clause applied to the empty grid
and the hit clause applied to the 4×4 ring with the viewer at the center
facing angle 0, where the ray stops at step 64 on the solid border tile. -/
theorem castRay_march_spec_witness :
    ((Renderer.castRay [] 5 7 0 64 ((1000 : ℕ) : ℝ)).distance = ((1000 : ℕ) : ℝ) ∧
      (Renderer.castRay [] 5 7 0 64 ((1000 : ℕ) : ℝ)).tile = none) ∧
    ∃ k : ℕ, 1 ≤ k ∧ k ≤ 1000 ∧
      (Renderer.castRay ring4 128 128 0 64 ((1000 : ℕ) : ℝ)).distance = (k : ℝ) ∧
      (Renderer.castRay ring4 128 128 0 64 ((1000 : ℕ) : ℝ)).hitX =
        ((128 : ℝ) + Real.cos 0 * k) / 64 ∧
      (Renderer.castRay ring4 128 128 0 64 ((1000 : ℕ) : ℝ)).hitY =
        ((128 : ℝ) + Real.sin 0 * k) / 64 ∧
      GameMap.getTile ring4 ⌊((128 : ℝ) + Real.cos 0 * k) / 64⌋
        ⌊((128 : ℝ) + Real.sin 0 * k) / 64⌋ = some wallTile ∧
      wallTile.isSolid = true ∧
      ∀ j : ℕ, 1 ≤ j → j < k →
        Renderer.solidAt ring4 128 128 (Real.cos 0) (Real.sin 0) 64 j = false := by
  constructor
  · exact (castRay_march_spec [] 5 7 0 64 1000).2.1
      (fun k _ _ => solidAt_nil 5 7 (Real.cos 0) (Real.sin 0) 64 k)
  · exact (castRay_march_spec ring4 128 128 0 64 1000).1 wallTile
      (by rw [show ((1000 : ℕ) : ℝ) = (1000 : ℝ) by norm_num, ring4_castRay_concrete])

/-- A march step fails to register as solid exactly when its floored
sample cell has no tile (out of bounds) or its tile is non-solid. -/
lemma solidAt_false_iff {α : Type} [LinearOrderedField α] [FloorRing α]
    (tiles : List (List Tile)) (px py c s T : α) (k : ℕ) :
    Renderer.solidAt tiles px py c s T k = false ↔
      (GameMap.getTile tiles ⌊Renderer.sample px c T k⌋
          ⌊Renderer.sample py s T k⌋ = none ∨
        ∃ t, GameMap.getTile tiles ⌊Renderer.sample px c T k⌋
            ⌊Renderer.sample py s T k⌋ = some t ∧ t.isSolid = false) := by
  unfold Renderer.solidAt
  rcases hgt : GameMap.getTile tiles ⌊Renderer.sample px c T k⌋
      ⌊Renderer.sample py s T k⌋ with _ | t
  · simp
  · simp [hgt]

/-- C4: `castRay` registers a hit only at a sample whose floored cell lies
inside the grid's bounds (a row exists at the y index and a column at the
x index) and carries a solid tile; a sample whose cell is out of bounds
gives `getTile = none` and never registers as solid; and if every sample
in `[1, maxDistance]` lands on a non-solid or out-of-bounds cell, the
march runs to `maxDistance` and reports tile absent. -/
theorem castRay_hit_bounds_spec (tiles : List (List Tile)) (px py θ T : ℝ) (m : ℕ) :
    (∀ t, (Renderer.castRay tiles px py θ T (m : ℝ)).tile = some t →
      t.isSolid = true ∧
      ∃ k : ℕ, 1 ≤ k ∧ k ≤ m ∧
        ∃ x y : ℤ, x = ⌊(px + Real.cos θ * k) / T⌋ ∧
          y = ⌊(py + Real.sin θ * k) / T⌋ ∧
          GameMap.getTile tiles x y = some t ∧
          0 ≤ x ∧ 0 ≤ y ∧ y.toNat < tiles.length ∧
          ∃ row, tiles[y.toNat]? = some row ∧ x.toNat < row.length) ∧
    (∀ k : ℕ, GameMap.getTile tiles ⌊(px + Real.cos θ * (k : ℝ)) / T⌋
        ⌊(py + Real.sin θ * (k : ℝ)) / T⌋ = none →
      Renderer.solidAt tiles px py (Real.cos θ) (Real.sin θ) T k = false) ∧
    ((∀ k : ℕ, 1 ≤ k → k ≤ m →
        GameMap.getTile tiles ⌊(px + Real.cos θ * (k : ℝ)) / T⌋
          ⌊(py + Real.sin θ * (k : ℝ)) / T⌋ = none ∨
        ∃ t, GameMap.getTile tiles ⌊(px + Real.cos θ * (k : ℝ)) / T⌋
            ⌊(py + Real.sin θ * (k : ℝ)) / T⌋ = some t ∧ t.isSolid = false) →
      (Renderer.castRay tiles px py θ T (m : ℝ)).distance = (m : ℝ) ∧
      (Renderer.castRay tiles px py θ T (m : ℝ)).tile = none) := by
  have hconv : ∀ k : ℕ,
      (GameMap.getTile tiles ⌊(px + Real.cos θ * (k : ℝ)) / T⌋
          ⌊(py + Real.sin θ * (k : ℝ)) / T⌋ = none ∨
        ∃ t, GameMap.getTile tiles ⌊(px + Real.cos θ * (k : ℝ)) / T⌋
            ⌊(py + Real.sin θ * (k : ℝ)) / T⌋ = some t ∧ t.isSolid = false) →
      Renderer.solidAt tiles px py (Real.cos θ) (Real.sin θ) T k = false := by
    intro k hk
    exact (solidAt_false_iff tiles px py (Real.cos θ) (Real.sin θ) T k).mpr hk
  refine ⟨?_, fun k hk => hconv k (Or.inl hk), ?_⟩
  · intro t ht
    unfold Renderer.castRay at ht
    rcases castRayCS_cases tiles px py (Real.cos θ) (Real.sin θ) T m with
      ⟨k, hk0, hkm, hsol, -, heq⟩ | ⟨-, -, htile⟩
    · rw [heq] at ht
      have hgt : GameMap.getTile tiles ⌊(px + Real.cos θ * k) / T⌋
          ⌊(py + Real.sin θ * k) / T⌋ = some t := ht
      have hts : t.isSolid = true := by
        have hsol' := hsol
        unfold Renderer.solidAt at hsol'
        rw [show GameMap.getTile tiles ⌊Renderer.sample px (Real.cos θ) T k⌋
              ⌊Renderer.sample py (Real.sin θ) T k⌋ = some t from hgt] at hsol'
        exact hsol'
      obtain ⟨hx0, hy0, hylen, row, hrow, hxlen, -⟩ := getTile_some_bounds hgt
      exact ⟨hts, k, hk0, hkm, _, _, rfl, rfl, hgt, hx0, hy0, hylen, row, hrow, hxlen⟩
    · rw [htile] at ht
      exact Option.noConfusion ht
  · intro hall
    unfold Renderer.castRay
    rcases castRayCS_cases tiles px py (Real.cos θ) (Real.sin θ) T m with
      ⟨k, hk0, hkm, hsol, -, -⟩ | ⟨-, hdist, htile⟩
    · have := hconv k (hall k hk0 hkm)
      rw [this] at hsol
      exact absurd hsol (by simp)
    · exact ⟨hdist, htile⟩

/-- Witness for C4: the hit clause applied to the ring scenario (the hit
tile is solid and its cell `(3, 2)` is in bounds), and the run-out clause
applied to the empty grid (every sample is out of bounds). -/
theorem castRay_hit_bounds_spec_witness :
    (wallTile.isSolid = true ∧
      ∃ k : ℕ, 1 ≤ k ∧ k ≤ 1000 ∧
        ∃ x y : ℤ, x = ⌊((128 : ℝ) + Real.cos 0 * k) / 64⌋ ∧
          y = ⌊((128 : ℝ) + Real.sin 0 * k) / 64⌋ ∧
          GameMap.getTile ring4 x y = some wallTile ∧
          0 ≤ x ∧ 0 ≤ y ∧ y.toNat < ring4.length ∧
          ∃ row, ring4[y.toNat]? = some row ∧ x.toNat < row.length) ∧
    ((Renderer.castRay [] 9 9 0 64 ((1000 : ℕ) : ℝ)).distance = ((1000 : ℕ) : ℝ) ∧
      (Renderer.castRay [] 9 9 0 64 ((1000 : ℕ) : ℝ)).tile = none) := by
  constructor
  · exact (castRay_hit_bounds_spec ring4 128 128 0 64 1000).1 wallTile
      (by rw [show ((1000 : ℕ) : ℝ) = (1000 : ℝ) by norm_num, ring4_castRay_concrete])
  · exact (castRay_hit_bounds_spec [] 9 9 0 64 1000).2.2
      (fun k _ _ => Or.inl (getTile_nil _ _))

/-- Every cell of the ring's left or right border column is solid. -/
lemma ring4_border_solid_x (a b : ℤ) (ha : a = 0 ∨ a = 3) (hb0 : 0 ≤ b) (hb3 : b ≤ 3) :
    (GameMap.getTile ring4 a b).elim false Tile.isSolid = true := by
  rcases ha with rfl | rfl <;> interval_cases b <;> decide

/-- Every cell of the ring's top or bottom border row is solid. -/
lemma ring4_border_solid_y (a b : ℤ) (hb : b = 0 ∨ b = 3) (ha0 : 0 ≤ a) (ha3 : a ≤ 3) :
    (GameMap.getTile ring4 a b).elim false Tile.isSolid = true := by
  rcases hb with rfl | rfl <;> interval_cases a <;> decide

/-- For any unit direction `(c, s)`, the sample at step 91 of a march from
the ring's center `(128, 128)` lands on a solid border cell: one of the
two coordinates has been displaced by more than one tile (64 world units),
while both stay within the 4-tile extent. -/
lemma ring4_solidAt_91 (c s : ℝ) (h1 : c ^ 2 + s ^ 2 = 1) :
    Renderer.solidAt ring4 128 128 c s 64 91 = true := by
  have hc1 : c ≤ 1 := by nlinarith [sq_nonneg s, sq_nonneg (c - 1), sq_nonneg (c + 1)]
  have hc2 : -1 ≤ c := by nlinarith [sq_nonneg s, sq_nonneg (c - 1), sq_nonneg (c + 1)]
  have hs1 : s ≤ 1 := by nlinarith [sq_nonneg c, sq_nonneg (s - 1), sq_nonneg (s + 1)]
  have hs2 : -1 ≤ s := by nlinarith [sq_nonneg c, sq_nonneg (s - 1), sq_nonneg (s + 1)]
  have hsx : Renderer.sample (128 : ℝ) c 64 91 = (128 + c * 91) / 64 := by
    unfold Renderer.sample
    norm_num
  have hsy : Renderer.sample (128 : ℝ) s 64 91 = (128 + s * 91) / 64 := by
    unfold Renderer.sample
    norm_num
  have hbig : 64 < 91 * c ∨ 91 * c < -64 ∨ 64 < 91 * s ∨ 91 * s < -64 := by
    by_contra hcon
    push_neg at hcon
    obtain ⟨ha, hb, hc', hd⟩ := hcon
    nlinarith [mul_nonneg (by linarith : (0 : ℝ) ≤ 64 - 91 * c)
        (by linarith : (0 : ℝ) ≤ 91 * c + 64),
      mul_nonneg (by linarith : (0 : ℝ) ≤ 64 - 91 * s)
        (by linarith : (0 : ℝ) ≤ 91 * s + 64)]
  have hB0y : (0 : ℤ) ≤ ⌊((128 : ℝ) + s * 91) / 64⌋ := by
    rw [Int.le_floor]
    push_cast
    rw [le_div_iff₀ (by norm_num : (0 : ℝ) < 64)]
    linarith
  have hB3y : ⌊((128 : ℝ) + s * 91) / 64⌋ ≤ 3 := by
    have h4 : ⌊((128 : ℝ) + s * 91) / 64⌋ < 4 := by
      rw [Int.floor_lt]
      push_cast
      rw [div_lt_iff₀ (by norm_num : (0 : ℝ) < 64)]
      linarith
    omega
  have hB0x : (0 : ℤ) ≤ ⌊((128 : ℝ) + c * 91) / 64⌋ := by
    rw [Int.le_floor]
    push_cast
    rw [le_div_iff₀ (by norm_num : (0 : ℝ) < 64)]
    linarith
  have hB3x : ⌊((128 : ℝ) + c * 91) / 64⌋ ≤ 3 := by
    have h4 : ⌊((128 : ℝ) + c * 91) / 64⌋ < 4 := by
      rw [Int.floor_lt]
      push_cast
      rw [div_lt_iff₀ (by norm_num : (0 : ℝ) < 64)]
      linarith
    omega
  unfold Renderer.solidAt
  rw [hsx, hsy]
  rcases hbig with hx | hx | hy | hy
  · have hA : ⌊((128 : ℝ) + c * 91) / 64⌋ = 3 := by
      rw [Int.floor_eq_iff]
      constructor
      · push_cast
        rw [le_div_iff₀ (by norm_num : (0 : ℝ) < 64)]
        linarith
      · push_cast
        rw [div_lt_iff₀ (by norm_num : (0 : ℝ) < 64)]
        linarith
    rw [hA]
    exact ring4_border_solid_x 3 _ (Or.inr rfl) hB0y hB3y
  · have hA : ⌊((128 : ℝ) + c * 91) / 64⌋ = 0 := by
      rw [Int.floor_eq_iff]
      constructor
      · push_cast
        rw [le_div_iff₀ (by norm_num : (0 : ℝ) < 64)]
        linarith
      · push_cast
        rw [div_lt_iff₀ (by norm_num : (0 : ℝ) < 64)]
        linarith
    rw [hA]
    exact ring4_border_solid_x 0 _ (Or.inl rfl) hB0y hB3y
  · have hA : ⌊((128 : ℝ) + s * 91) / 64⌋ = 3 := by
      rw [Int.floor_eq_iff]
      constructor
      · push_cast
        rw [le_div_iff₀ (by norm_num : (0 : ℝ) < 64)]
        linarith
      · push_cast
        rw [div_lt_iff₀ (by norm_num : (0 : ℝ) < 64)]
        linarith
    rw [hA]
    exact ring4_border_solid_y _ 3 (Or.inr rfl) hB0x hB3x
  · have hA : ⌊((128 : ℝ) + s * 91) / 64⌋ = 0 := by
      rw [Int.floor_eq_iff]
      constructor
      · push_cast
        rw [le_div_iff₀ (by norm_num : (0 : ℝ) < 64)]
        linarith
      · push_cast
        rw [div_lt_iff₀ (by norm_num : (0 : ℝ) < 64)]
        linarith
    rw [hA]
    exact ring4_border_solid_y _ 0 (Or.inl rfl) hB0x hB3x

/-- For any unit direction the march from the ring's center hits (a tile
is present) at a distance below 129 = 2·64 + 1 (the ring's tile-size-scaled
radius plus step tolerance). -/
lemma ring4_castRayCS_hits (c s : ℝ) (h1 : c ^ 2 + s ^ 2 = 1) :
    ((Renderer.castRayCS ring4 128 128 c s 64 ((1000 : ℕ) : ℝ)).tile).isSome = true ∧
    (Renderer.castRayCS ring4 128 128 c s 64 ((1000 : ℕ) : ℝ)).distance < 129 := by
  rcases castRayCS_cases ring4 (128 : ℝ) 128 c s 64 1000 with
    ⟨k, hk0, hkm, hsol, hmin, heq⟩ | ⟨hnone, -, -⟩
  · have hk91 : k ≤ 91 := by
      by_contra hgt
      have hm := hmin 91 (by omega) (by omega)
      rw [ring4_solidAt_91 c s h1] at hm
      exact Bool.noConfusion hm
    constructor
    · rw [heq]
      have hsol' := hsol
      unfold Renderer.solidAt at hsol'
      rcases hgt : GameMap.getTile ring4 ⌊Renderer.sample (128 : ℝ) c 64 k⌋
          ⌊Renderer.sample (128 : ℝ) s 64 k⌋ with _ | t
      · rw [hgt] at hsol'
        simp at hsol'
      · rfl
    · rw [heq]
      show (k : ℝ) < 129
      have hk' : (k : ℝ) ≤ 91 := by exact_mod_cast hk91
      linarith
  · exfalso
    have hm := hnone 91 (by omega) (by omega)
    rw [ring4_solidAt_91 c s h1] at hm
    exact Bool.noConfusion hm

/-- The interior cells `[4, 6] × [4, 6]` of the 8×8 ring are open. -/
lemma ring8_interior_empty (a b : ℤ) (ha4 : 4 ≤ a) (ha6 : a ≤ 6)
    (hb4 : 4 ≤ b) (hb6 : b ≤ 6) :
    (GameMap.getTile ring8 a b).elim false Tile.isSolid = false := by
  interval_cases a <;> interval_cases b <;> decide

/-- Along the diagonal direction `(√2/2, √2/2)` from the 8×8 ring's center
`(256, 256)`, no sample up to step 257 is solid: the displacement
`(√2/2)·k < 192` keeps both floored coordinates in the open interior
band `[4, 6]`. -/
lemma ring8_diag_not_solid (k : ℕ) (h1 : 1 ≤ k) (h2 : k ≤ 257) :
    Renderer.solidAt ring8 256 256 (Real.sqrt 2 / 2) (Real.sqrt 2 / 2) 64 k =
      false := by
  unfold Renderer.solidAt Renderer.sample
  have hs0 : (0 : ℝ) ≤ Real.sqrt 2 := Real.sqrt_nonneg 2
  have hsq : Real.sqrt 2 ^ 2 = 2 := Real.sq_sqrt (by norm_num)
  have hs149 : Real.sqrt 2 < 149 / 100 := by nlinarith
  have hk0 : (0 : ℝ) ≤ (k : ℝ) := by positivity
  have hk257 : (k : ℝ) ≤ 257 := by exact_mod_cast h2
  have hdisp0 : (0 : ℝ) ≤ Real.sqrt 2 / 2 * (k : ℝ) := by positivity
  have hdisp192 : Real.sqrt 2 / 2 * (k : ℝ) < 192 := by nlinarith
  have h4 : (4 : ℤ) ≤ ⌊((256 : ℝ) + Real.sqrt 2 / 2 * (k : ℝ)) / 64⌋ := by
    rw [Int.le_floor]
    push_cast
    rw [le_div_iff₀ (by norm_num : (0 : ℝ) < 64)]
    linarith
  have h6 : ⌊((256 : ℝ) + Real.sqrt 2 / 2 * (k : ℝ)) / 64⌋ ≤ 6 := by
    have h7 : ⌊((256 : ℝ) + Real.sqrt 2 / 2 * (k : ℝ)) / 64⌋ < 7 := by
      rw [Int.floor_lt]
      push_cast
      rw [div_lt_iff₀ (by norm_num : (0 : ℝ) < 64)]
      linarith
    omega
  exact ring8_interior_empty _ _ h4 h6 h4 h6

/-- C5 counterexample: the claim's general bound — a hit at a distance
less than the ring's tile-size-scaled radius plus step tolerance, for a
viewer at the center of any single ring of solid tiles — fails on the 8×8
ring: its tile-size-scaled (half-width) radius is `4·64 = 256`, yet the
diagonal ray at angle `π/4` from the center `(256, 256)` reports a
distance of at least 258, not below `4·64 + 1`. -/
theorem ring8_radius_bound_counterexample :
    (258 : ℝ) ≤ (Renderer.castRay ring8 256 256 (Real.pi / 4) 64 1000).distance ∧
    ¬ ((Renderer.castRay ring8 256 256 (Real.pi / 4) 64 1000).distance <
        4 * 64 + 1) := by
  have key : (258 : ℝ) ≤
      (Renderer.castRay ring8 256 256 (Real.pi / 4) 64 1000).distance := by
    unfold Renderer.castRay
    rw [Real.cos_pi_div_four, Real.sin_pi_div_four]
    rw [show (1000 : ℝ) = ((1000 : ℕ) : ℝ) by norm_num]
    rcases castRayCS_cases ring8 (256 : ℝ) 256 (Real.sqrt 2 / 2) (Real.sqrt 2 / 2)
        64 1000 with ⟨k, hk0, hkm, hsol, hmin, heq⟩ | ⟨-, hdist, -⟩
    · have hk258 : 258 ≤ k := by
        by_contra hlt
        have := ring8_diag_not_solid k hk0 (by omega)
        rw [this] at hsol
        exact Bool.noConfusion hsol
      rw [heq]
      show (258 : ℝ) ≤ (k : ℝ)
      exact_mod_cast hk258
    · rw [hdist]
      norm_num
  exact ⟨key, by linarith⟩

/-- C5 (amended): on the 4×4 ring grid of the end-to-end scenario
(all-solid border, open interior) with the viewer at the center
`(128, 128)`, a ray cast at any angle reports a hit (tile present) at a
distance below the ring's tile-size-scaled radius plus step tolerance
(129 = 2·64 + 1) — the radius bound holds for this ring, though not for
arbitrarily large rings — and each of the 10 rays of the end-to-end
scenario (facing angle 0, `FOV = π/3`, `numRays = 10`) reports a hit and
none reports tile absent. -/
theorem ring4_enclosure_spec :
    (∀ θ : ℝ, ((Renderer.castRay ring4 128 128 θ 64 1000).tile).isSome = true ∧
      (Renderer.castRay ring4 128 128 θ 64 1000).distance < 129) ∧
    (∀ i : Fin 10, ((Renderer.castRay ring4 128 128
        (Renderer.rayAngle 0 (Real.pi / 3) (i : ℕ) 10) 64 1000).tile).isSome = true) := by
  have hmain : ∀ θ : ℝ,
      ((Renderer.castRay ring4 128 128 θ 64 1000).tile).isSome = true ∧
      (Renderer.castRay ring4 128 128 θ 64 1000).distance < 129 := by
    intro θ
    unfold Renderer.castRay
    rw [show (1000 : ℝ) = ((1000 : ℕ) : ℝ) by norm_num]
    exact ring4_castRayCS_hits (Real.cos θ) (Real.sin θ) (Real.cos_sq_add_sin_sq θ)
  exact ⟨hmain, fun i => (hmain _).1⟩

/-- Blending with fog factor 0 returns the raw channel unchanged
(`Math.round` of a whole number). -/
lemma blendChannel_zero (ch fogCh : ℕ) :
    Renderer.blendChannel (ch : ℚ) (fogCh : ℚ) 0 = (ch : ℤ) := by
  unfold Renderer.blendChannel
  rw [show ((ch : ℚ) * (1 - 0) + (fogCh : ℚ) * 0) = ((ch : ℚ)) by ring]
  exact_mod_cast round_natCast ch

/-- Blending with fog factor 1 returns the fog channel exactly. -/
lemma blendChannel_one (ch fogCh : ℕ) :
    Renderer.blendChannel (ch : ℚ) (fogCh : ℚ) 1 = (fogCh : ℤ) := by
  unfold Renderer.blendChannel
  rw [show ((ch : ℚ) * (1 - 1) + (fogCh : ℚ) * 1) = ((fogCh : ℚ)) by ring]
  exact_mod_cast round_natCast fogCh

/-- Fog factor below the fog start is exactly 0. -/
lemma fogFactor_of_le_start {d : ℚ} (hd : d ≤ 300) : Renderer.fogFactor d = 0 := by
  unfold Renderer.fogFactor Renderer.fogStart Renderer.fogEnd
  have hq : (d - 300) / (700 - 300) ≤ 0 := by
    apply div_nonpos_of_nonpos_of_nonneg <;> linarith
  rw [min_eq_right (by linarith), max_eq_left (by linarith)]

/-- Fog factor beyond the fog end is exactly 1. -/
lemma fogFactor_of_ge_end {d : ℚ} (hd : 700 ≤ d) : Renderer.fogFactor d = 1 := by
  unfold Renderer.fogFactor Renderer.fogStart Renderer.fogEnd
  have hq : (1 : ℚ) ≤ (d - 300) / (700 - 300) := by
    rw [le_div_iff₀ (by norm_num : (0 : ℚ) < 700 - 300)]
    linarith
  rw [min_eq_left hq, max_eq_right (by norm_num : (0 : ℚ) ≤ 1)]

/-- C6: the fog blend factor is `clamp((distance − 300)/(700 − 300), 0, 1)`:
exactly 0 for every distance ≤ 300, exactly 1 for every distance ≥ 700,
and the raw linear ramp in between; the blended wall color at distance 0
equals the raw sampled texture color, and at every distance ≥ 700 it
equals the fog color exactly. -/
theorem fog_spec :
    (∀ d : ℚ, d ≤ 300 → Renderer.fogFactor d = 0) ∧
    (∀ d : ℚ, 700 ≤ d → Renderer.fogFactor d = 1) ∧
    (∀ d : ℚ, 300 ≤ d → d ≤ 700 →
      Renderer.fogFactor d = (d - 300) / (700 - 300)) ∧
    (∀ (tile : Tile) (texX texY : ℤ) (store : List (String × ImageData))
        (fc : ℕ × ℕ × ℕ), tile.texture.getD "" ≠ "" →
      Renderer.getWallColorRGB tile texX texY store fc 0 =
        some (((Renderer.parseRGBDefault
            (TextureManager.getTextureSample store tile.name texX texY)).1 : ℤ),
          ((Renderer.parseRGBDefault
            (TextureManager.getTextureSample store tile.name texX texY)).2.1 : ℤ),
          ((Renderer.parseRGBDefault
            (TextureManager.getTextureSample store tile.name texX texY)).2.2 : ℤ))) ∧
    (∀ (tile : Tile) (texX texY : ℤ) (store : List (String × ImageData))
        (fc : ℕ × ℕ × ℕ) (d : ℚ), 700 ≤ d → tile.texture.getD "" ≠ "" →
      Renderer.getWallColorRGB tile texX texY store fc d =
        some ((fc.1 : ℤ), (fc.2.1 : ℤ), (fc.2.2 : ℤ))) := by
  refine ⟨fun d hd => fogFactor_of_le_start hd, fun d hd => fogFactor_of_ge_end hd,
    ?_, ?_, ?_⟩
  · intro d h3 h7
    unfold Renderer.fogFactor Renderer.fogStart Renderer.fogEnd
    have h0 : (0 : ℚ) ≤ (d - 300) / (700 - 300) := by
      apply div_nonneg <;> linarith
    have h1 : (d - 300) / (700 - 300) ≤ 1 := by
      rw [div_le_one (by norm_num : (0 : ℚ) < 700 - 300)]
      linarith
    rw [min_eq_right h1, max_eq_right h0]
  · intro tile texX texY store fc htex
    unfold Renderer.getWallColorRGB
    rw [if_neg htex, fogFactor_of_le_start (by norm_num : (0 : ℚ) ≤ 300)]
    rw [blendChannel_zero, blendChannel_zero, blendChannel_zero]
  · intro tile texX texY store fc d hd htex
    unfold Renderer.getWallColorRGB
    rw [if_neg htex, fogFactor_of_ge_end hd]
    rw [blendChannel_one, blendChannel_one, blendChannel_one]

/-- Witness for C6 at concrete distances and a concrete wall tile: fog
factor 0 at distance 100, 1 at distance 800, the linear value 1/2 at
distance 500; with an empty texture store the parse defaults to
`(255, 255, 255)`, returned unchanged at distance 0 and replaced by the
fog color `(7, 7, 7)` at distance 900. -/
theorem fog_spec_witness :
    Renderer.fogFactor 100 = 0 ∧
    Renderer.fogFactor 800 = 1 ∧
    Renderer.fogFactor 500 = (500 - 300) / (700 - 300) ∧
    Renderer.getWallColorRGB wallTile 0 0 [] (7, 7, 7) 0 = some (255, 255, 255) ∧
    Renderer.getWallColorRGB wallTile 0 0 [] (7, 7, 7) 900 = some (7, 7, 7) := by
  refine ⟨fog_spec.1 100 (by norm_num), fog_spec.2.1 800 (by norm_num),
    fog_spec.2.2.1 500 (by norm_num) (by norm_num), ?_, ?_⟩
  · rw [fog_spec.2.2.2.1 wallTile 0 0 [] (7, 7, 7) (by decide)]
    rfl
  · rw [fog_spec.2.2.2.2 wallTile 0 0 [] (7, 7, 7) 900 (by norm_num) (by decide)]
    decide

/-- C7: the wall-face tie-break compares `|hitX − round hitX|` with
`|hitY − round hitY|` (the source writes `Math.floor(v + 0.5)` for
`round`); the coordinate strictly closer to an integer boundary determines
the face, and the texture column is the floor of the other coordinate's
fractional part scaled by tile size. -/
theorem wallFace_tiebreak_spec (hitX hitY tileSize : ℚ) :
    (|hitX - round hitX| < |hitY - round hitY| →
      Renderer.textureX hitX hitY tileSize = ⌊Int.fract hitY * tileSize⌋) ∧
    (|hitY - round hitY| < |hitX - round hitX| →
      Renderer.textureX hitX hitY tileSize = ⌊Int.fract hitX * tileSize⌋) := by
  unfold Renderer.textureX Renderer.wallXFrac
  constructor
  · intro h
    rw [round_eq, round_eq] at h
    rw [if_neg (not_lt.mpr (le_of_lt h))]
    rw [Int.self_sub_floor]
  · intro h
    rw [round_eq, round_eq] at h
    rw [if_pos h]
    rw [Int.self_sub_floor]

/-- Witness for C7: at `(hitX, hitY) = (1/4, 9/2)` the x coordinate is
strictly closer to an integer, so the texture column comes from the y
fraction; at `(9/2, 1/4)` the roles swap. -/
theorem wallFace_tiebreak_spec_witness :
    Renderer.textureX (1 / 4) (9 / 2) 64 = ⌊Int.fract ((9 : ℚ) / 2) * 64⌋ ∧
    Renderer.textureX (9 / 2) (1 / 4) 64 = ⌊Int.fract ((9 : ℚ) / 2) * 64⌋ := by
  have habs : |(1 : ℚ) / 4 - round ((1 : ℚ) / 4)| < |(9 : ℚ) / 2 - round ((9 : ℚ) / 2)| := by
    rw [show ((1 : ℚ) / 4 - round ((1 : ℚ) / 4)) = 1 / 4 by norm_num [round_eq],
      show ((9 : ℚ) / 2 - round ((9 : ℚ) / 2)) = -(1 / 2) by norm_num [round_eq],
      abs_neg, abs_of_nonneg (by norm_num : (0 : ℚ) ≤ 1 / 4),
      abs_of_nonneg (by norm_num : (0 : ℚ) ≤ 1 / 2)]
    norm_num
  constructor
  · exact (wallFace_tiebreak_spec (1 / 4) (9 / 2) 64).1 habs
  · exact (wallFace_tiebreak_spec (9 / 2) (1 / 4) 64).2 habs

/-- C8: each column's ray angle is
`viewerAngle − FOV/2 + (i/N)·FOV`, the apparent wall height is
`tileSize · projectionDistance / (distance + 0.0001)`, and at
`tileSize = 64`, `projectionDistance = 256`, `distance = 64` the wall
height is within `1/1000` of 256 (the deviation induced by the `+0.0001`
divisor). -/
theorem projection_spec :
    (∀ (angle fov : ℚ) (i n : ℕ),
      Renderer.rayAngle angle fov i n = angle - fov / 2 + ((i : ℚ) / (n : ℚ)) * fov) ∧
    (∀ T P d : ℚ, Renderer.wallHeight T P d = T * P / (d + 1 / 10000)) ∧
    |Renderer.wallHeight 64 256 64 - 256| < 1 / 1000 := by
  refine ⟨fun _ _ _ _ => rfl, fun _ _ _ => rfl, ?_⟩
  unfold Renderer.wallHeight
  rw [abs_sub_lt_iff]
  norm_num

/-- Clamping is idempotent. -/
lemma clampCoord_idem (v : ℤ) (n : ℕ) :
    TextureManager.clampCoord (TextureManager.clampCoord v n) n =
      TextureManager.clampCoord v n := by
  unfold TextureManager.clampCoord
  omega

/-- The byte index only depends on the clamped coordinates. -/
lemma texIndex_clamp (img : ImageData) (x y : ℤ) :
    TextureManager.texIndex img (TextureManager.clampCoord x img.width)
      (TextureManager.clampCoord y img.height) = TextureManager.texIndex img x y := by
  unfold TextureManager.texIndex
  rw [clampCoord_idem, clampCoord_idem]

/-- Under the `ImageData` size invariant, the three byte reads of a sample
are in range. -/
lemma texIndex_lt (img : ImageData) (x y : ℤ) (hw : 0 < img.width)
    (hh : 0 < img.height) (hlen : img.data.length = 4 * img.width * img.height) :
    TextureManager.texIndex img x y + 2 < img.data.length := by
  unfold TextureManager.texIndex TextureManager.clampCoord
  have hw' : (1 : ℤ) ≤ (img.width : ℤ) := by exact_mod_cast hw
  have hh' : (1 : ℤ) ≤ (img.height : ℤ) := by exact_mod_cast hh
  set cx := max 0 (min x ((img.width : ℤ) - 1)) with hcx
  set cy := max 0 (min y ((img.height : ℤ) - 1)) with hcy
  have h1 : 0 ≤ cx := le_max_left _ _
  have h2 : cx ≤ (img.width : ℤ) - 1 := by omega
  have h3 : 0 ≤ cy := le_max_left _ _
  have h4 : cy ≤ (img.height : ℤ) - 1 := by omega
  have hmul : cy * (img.width : ℤ) ≤ ((img.height : ℤ) - 1) * (img.width : ℤ) :=
    mul_le_mul_of_nonneg_right h4 (by linarith)
  have hI : (cy * (img.width : ℤ) + cx) * 4 + 2 <
      4 * (img.width : ℤ) * (img.height : ℤ) := by nlinarith
  have hInn : 0 ≤ (cy * (img.width : ℤ) + cx) * 4 := by
    have : 0 ≤ cy * (img.width : ℤ) := mul_nonneg h3 (by linarith)
    linarith
  have heq : (((cy * (img.width : ℤ) + cx) * 4).toNat : ℤ) =
      (cy * (img.width : ℤ) + cx) * 4 := Int.toNat_of_nonneg hInn
  have hcast : ((4 * img.width * img.height : ℕ) : ℤ) =
      4 * (img.width : ℤ) * (img.height : ℤ) := by push_cast; ring
  have hfin : ((((cy * (img.width : ℤ) + cx) * 4).toNat : ℤ)) + 2 <
      ((4 * img.width * img.height : ℕ) : ℤ) := by
    rw [heq, hcast]
    exact hI
  rw [hlen]
  exact_mod_cast hfin

/-- C10: texture color sampling clamps both coordinates into the decoded
image's bounds before indexing — out-of-bounds requests read the nearest
edge pixel and, under the `ImageData` size invariant, never index the byte
array out of range — and a texture name with no decoded data yields the
fixed fallback color white (`"#ffffff"`). -/
theorem getTextureColor_spec (store : List (String × ImageData)) (name : String)
    (x y : ℤ) :
    (store.lookup name = none →
      TextureManager.getTextureColor store name x y = "#ffffff") ∧
    (∀ img, store.lookup name = some img →
      TextureManager.getTextureSample store name x y =
        TextureManager.getTextureSample store name
          (TextureManager.clampCoord x img.width)
          (TextureManager.clampCoord y img.height) ∧
      (0 < img.width → 0 ≤ TextureManager.clampCoord x img.width ∧
        TextureManager.clampCoord x img.width < (img.width : ℤ)) ∧
      (0 < img.height → 0 ≤ TextureManager.clampCoord y img.height ∧
        TextureManager.clampCoord y img.height < (img.height : ℤ)) ∧
      (0 < img.width → 0 < img.height →
        img.data.length = 4 * img.width * img.height →
        TextureManager.texIndex img x y + 2 < img.data.length)) := by
  constructor
  · intro hmiss
    unfold TextureManager.getTextureColor TextureManager.getTextureSample
    rw [hmiss]
    rfl
  · intro img himg
    refine ⟨?_, ?_, ?_, fun hw hh hlen => texIndex_lt img x y hw hh hlen⟩
    · unfold TextureManager.getTextureSample
      rw [himg]
      simp only [Option.map_some']
      rw [texIndex_clamp]
    · intro hw
      unfold TextureManager.clampCoord
      have hw' : (1 : ℤ) ≤ (img.width : ℤ) := by exact_mod_cast hw
      omega
    · intro hh
      unfold TextureManager.clampCoord
      have hh' : (1 : ℤ) ≤ (img.height : ℤ) := by exact_mod_cast hh
      omega

/-- Witness for C10: a concrete store with one 2×2 texture.  The missing
name `"nope"` yields white; for the present name, the request at
`(5, -3)` is clamped to the edge pixel `(1, 0)` and every byte read stays
inside the 16-byte buffer. -/
theorem getTextureColor_spec_witness :
    TextureManager.getTextureColor
      [("tex", ⟨2, 2, [1, 2, 3, 4, 5, 6, 7, 8, 9, 10, 11, 12, 13, 14, 15, 16]⟩)]
      "nope" 5 (-3) = "#ffffff" ∧
    (TextureManager.getTextureSample
        [("tex", ⟨2, 2, [1, 2, 3, 4, 5, 6, 7, 8, 9, 10, 11, 12, 13, 14, 15, 16]⟩)]
        "tex" 5 (-3) =
      TextureManager.getTextureSample
        [("tex", ⟨2, 2, [1, 2, 3, 4, 5, 6, 7, 8, 9, 10, 11, 12, 13, 14, 15, 16]⟩)]
        "tex" (TextureManager.clampCoord 5 2) (TextureManager.clampCoord (-3) 2) ∧
      TextureManager.texIndex
        ⟨2, 2, [1, 2, 3, 4, 5, 6, 7, 8, 9, 10, 11, 12, 13, 14, 15, 16]⟩ 5 (-3) + 2 <
        16) := by
  constructor
  · exact (getTextureColor_spec
      [("tex", ⟨2, 2, [1, 2, 3, 4, 5, 6, 7, 8, 9, 10, 11, 12, 13, 14, 15, 16]⟩)]
      "nope" 5 (-3)).1 (by decide)
  · have h := (getTextureColor_spec
      [("tex", ⟨2, 2, [1, 2, 3, 4, 5, 6, 7, 8, 9, 10, 11, 12, 13, 14, 15, 16]⟩)]
      "tex" 5 (-3)).2 ⟨2, 2, [1, 2, 3, 4, 5, 6, 7, 8, 9, 10, 11, 12, 13, 14, 15, 16]⟩
      (by decide)
    exact ⟨h.1, h.2.2.2 (by decide) (by decide) (by decide)⟩

end Room25
